import Mathlib

/-!
Verification of the Range-Request subsystem of the FlatGeobuf API
(`src/app.py`): the HTTP `Range` header parser (`RangeParser.parse`,
`RangeParser._parse_normal_range`, `RangeParser._validate_range`), the two
byte sources (`LocalDataSource.stream_range`, `S3DataSource`), and the
orchestration (`FlatGeobufService.handle_get_request`,
`FlatGeobufService.get_range_headers`).

Headers are modelled as `List Char`; the unbounded Python integers as `Int`
(byte counts as `Nat`); raised `HTTPException`s as `Except` errors.  The
suffix branch of `parse` calls the Python `int()` outside of any
`try`/`except`, so a `ValueError` escaping there is modelled by the
distinguished error `RangeError.uncaughtValueError`.
-/

/-- The typed errors raised by the range-request subsystem, one constructor
per `raise HTTPException` site in the `RangeParser` of src/app.py, plus
`uncaughtValueError` for the `ValueError` that `int()` can raise on the
suffix branch of `parse` (line 116), where it is NOT caught and therefore
escapes the 416 error taxonomy. -/
inductive RangeError where
  /-- line 107: header does not start with `bytes=` (416). -/
  | unsupportedUnit
  /-- line 112: comma in the range spec, multiple ranges unsupported (416). -/
  | multipleRanges
  /-- line 118: suffix length `N ≤ 0` (416). -/
  | invalidSuffixLength
  /-- line 137: spec does not split into exactly two dash-delimited parts (416). -/
  | invalidRangeFormat
  /-- line 144: `int(start_str)` raised `ValueError` in the normal form (416). -/
  | invalidRangeStart
  /-- line 153: `int(end_str)` raised `ValueError` in the normal form (416). -/
  | invalidRangeEnd
  /-- line 161: `start < 0`, `end >= file_size` or `start > end` (416). -/
  | rangeNotSatisfiable
  /-- line 167: `end - start + 1 > max_bytes` (416). -/
  | rangeTooLarge
  /-- line 116: `int(range_spec[1:])` raised `ValueError`, uncaught by `parse`. -/
  | uncaughtValueError
deriving DecidableEq, Repr

/-- Errors visible at the service layer (`FlatGeobufService` / data sources). -/
inductive ApiError where
  /-- HTTP 404: resource absent in the backing store. -/
  | notFound
  /-- HTTP 416: GET without (or with an empty) `Range` header (line 398). -/
  | missingRangeHeader
  /-- A parser error, propagated unchanged (HTTP 416, or an escaped exception). -/
  | range (e : RangeError)
  /-- HTTP 500: backend fault, with the backend-native error code preserved. -/
  | backendError (code : String)
deriving DecidableEq, Repr

/-- Model of the Python `l.startswith(p)` on character lists, as
`startsWithList p l`. -/
def startsWithList : List Char → List Char → Bool
  | [], _ => true
  | _ :: _, [] => false
  | p :: ps, c :: cs => p = c && startsWithList ps cs

/-- Model of the Python `str.strip()` (no argument): drop whitespace from
both ends. -/
def pyStrip (l : List Char) : List Char :=
  ((l.dropWhile Char.isWhitespace).reverse.dropWhile Char.isWhitespace).reverse

/-- Model of the Python `str.split("-")`: split on every occurrence of a dash;
`"".split("-") == [""]` and separators at the ends produce empty parts. -/
def splitOnDash : List Char → List (List Char)
  | [] => [[]]
  | c :: cs =>
    if c = '-' then [] :: splitOnDash cs
    else
      match splitOnDash cs with
      | r :: rs => (c :: r) :: rs
      | [] => [[c]]

/-- Evaluate a run of ASCII digits, allowing single underscores strictly
between digits, as the Python `int()` does (`1_0 == 10`, `1__0`/`1_`/`_1`
are `ValueError`).  `acc` is the value of the digits already consumed. -/
def pyDigitsAux (acc : Nat) : List Char → Option Nat
  | [] => some acc
  | c :: cs =>
    if c.isDigit then pyDigitsAux (10 * acc + (c.toNat - 48)) cs
    else if c = '_' then
      match cs with
      | d :: cs' => if d.isDigit then pyDigitsAux (10 * acc + (d.toNat - 48)) cs' else none
      | [] => none
    else none

/-- The digit-run part of the Python `int()`: a non-empty digit sequence,
underscores allowed only between digits. -/
def pyDigits : List Char → Option Nat
  | [] => none
  | c :: cs => if c.isDigit then pyDigitsAux (c.toNat - 48) cs else none

/-- Model of the Python `int(s)` on a decimal string: strips surrounding
whitespace,
accepts an optional single leading `+`/`-` sign, then a digit run with
optional underscore separators; `none` models a raised `ValueError`. -/
def pyInt (s : List Char) : Option Int :=
  match pyStrip s with
  | [] => none
  | c :: rest =>
    if c = '-' then (pyDigits rest).map (fun n => -(n : Int))
    else if c = '+' then (pyDigits rest).map (fun n => (n : Int))
    else (pyDigits (c :: rest)).map (fun n => (n : Int))

/-- Model of `RangeParser._validate_range` (src/app.py lines 157-170): raise
`rangeNotSatisfiable` if `start < 0`, `end ≥ file_size` or `start > end`;
then raise `rangeTooLarge` if `end - start + 1 > max_bytes`. -/
def validateRange (start e file_size max_bytes : Int) : Except RangeError Unit :=
  if start < 0 ∨ e ≥ file_size ∨ start > e then .error .rangeNotSatisfiable
  else if e - start + 1 > max_bytes then .error .rangeTooLarge
  else .ok ()

/-- Model of `RangeParser._parse_normal_range` (src/app.py lines 133-155):
split the
spec on `'-'` into exactly two parts, parse the start with `int()`
(`invalidRangeStart` on failure), and the end with `int()` unless it is the
empty string, in which case `end = file_size - 1`. -/
def parseNormalRange (range_spec : List Char) (file_size : Int) :
    Except RangeError (Int × Int) :=
  match splitOnDash range_spec with
  | [start_str, end_str] =>
    match pyInt start_str with
    | none => .error .invalidRangeStart
    | some start =>
      if end_str = [] then .ok (start, file_size - 1)
      else
        match pyInt end_str with
        | none => .error .invalidRangeEnd
        | some e => .ok (start, e)
  | _ => .error .invalidRangeFormat

/-- Model of `RangeParser.parse` (src/app.py lines 84-131): require the `bytes=`
prefix, strip the spec, reject commas, dispatch the suffix form
(`-N`, via `int()` whose `ValueError` is uncaught) or the normal form,
then validate the resolved `(start, end)` pair. -/
def parse (range_header : List Char) (file_size max_bytes : Int) :
    Except RangeError (Int × Int) :=
  if ¬ startsWithList "bytes=".toList range_header then .error .unsupportedUnit
  else
    let range_spec := pyStrip (range_header.drop 6)
    if range_spec.contains ',' then .error .multipleRanges
    else if range_spec.head? = some '-' then
      match pyInt (range_spec.drop 1) with
      | none => .error .uncaughtValueError
      | some suffix_length =>
        if suffix_length ≤ 0 then .error .invalidSuffixLength
        else
          let start := max (file_size - suffix_length) 0
          let e := file_size - 1
          (validateRange start e file_size max_bytes).map fun _ => (start, e)
    else
      match parseNormalRange range_spec file_size with
      | .error err => .error err
      | .ok (start, e) =>
        (validateRange start e file_size max_bytes).map fun _ => (start, e)

/-- The chunked read loop shared by both data sources (src/app.py lines
217-228 and 304-315): while `remaining > 0`, read up to
`min chunk_size remaining` bytes from the current position of `data`;
an empty read breaks the loop, otherwise the chunk is yielded, the
position advances and `remaining` decreases by the length of the chunk. -/
def readLoop (data : List Nat) (remaining chunk_size : Nat) : List (List Nat) :=
  if h : remaining = 0 then []
  else
    if hc : data.take (min chunk_size remaining) = [] then []
    else
      data.take (min chunk_size remaining) ::
        readLoop (data.drop (data.take (min chunk_size remaining)).length)
          (remaining - (data.take (min chunk_size remaining)).length) chunk_size
termination_by remaining
decreasing_by
  have hl : 0 < (data.take (min chunk_size remaining)).length :=
    List.length_pos.mpr hc
  omega

/-- Model of `LocalDataSource.stream_range` (src/app.py lines 204-230): seek to
`start`, then stream `end - start + 1` bytes in chunks of at most
`chunk_size`, stopping early on an empty read.  The file is modelled as
its byte list. -/
def stream_range (file : List Nat) (start e chunk_size : Nat) : List (List Nat) :=
  readLoop (file.drop start) (e + 1 - start) chunk_size

/-- Model of `S3DataSource.stream_range`, success path (src/app.py lines
280-317):
a single remote range fetch `bytes=start-end` returns the corresponding
slice of the object, which is then re-chunked into `chunk_size` pieces by
the same read loop. -/
def s3_stream_range (file : List Nat) (start e chunk_size : Nat) : List (List Nat) :=
  readLoop ((file.drop start).take (e + 1 - start)) (e + 1 - start) chunk_size

/-- Outcome of a remote S3 call: a value, or a `botocore` `ClientError`
carrying the backend error code (from the Error/Code field of `e.response`). -/
inductive S3Result (α : Type) where
  | ok (val : α)
  | clientError (code : String)
deriving DecidableEq, Repr

/-- Model of `S3DataSource.get_file_size` (src/app.py lines 263-278): a
`ClientError` with code `"404"` becomes HTTP 404 (`notFound`); any other
`ClientError` becomes HTTP 500 (`backendError`) with the cause preserved. -/
def s3_get_file_size (response : S3Result Int) : Except ApiError Int :=
  match response with
  | .ok size => .ok size
  | .clientError code =>
    if code = "404" then .error .notFound
    else .error (.backendError code)

/-- Model of `S3DataSource.stream_range`, error handling (src/app.py lines
296-321):
the whole fetch-and-rechunk is wrapped in one `except ClientError` that
maps EVERY `ClientError` — the code `"404"` included — to HTTP 500
(`backendError`), preserving the cause; there is no 404 special case here. -/
def s3_stream_range_response (response : S3Result (List Nat))
    (start e chunk_size : Nat) : Except ApiError (List (List Nat)) :=
  match response with
  | .ok body => .ok (readLoop body (e + 1 - start) chunk_size)
  | .clientError code => .error (.backendError code)

/-- Model of `FlatGeobufService.get_range_headers` (src/app.py lines 348-356). -/
def get_range_headers (start e file_size : Int) : List (String × String) :=
  [("Content-Range", "bytes " ++ toString start ++ "-" ++ toString e ++ "/" ++ toString file_size),
   ("Accept-Ranges", "bytes"),
   ("Content-Length", toString (e - start + 1)),
   ("Content-Type", "application/octet-stream")]

/-- The `StreamingResponse` assembled by `handle_get_request` on success:
status code, headers, and the validated interval driving the body stream. -/
structure RangeResponse where
  status : Nat
  headers : List (String × String)
  start : Int
  stop : Int
deriving DecidableEq, Repr

/-- Model of `FlatGeobufService.handle_get_request` (src/app.py lines 377-430):
resolve the file size through the data source FIRST (its error — e.g.
404 — propagates before the header is even looked at); then require a
non-absent, non-empty `Range` header (else 416 `missingRangeHeader`);
then parse and validate; on success build a 206 response with
`get_range_headers`.  The data-source size lookup is passed as its
`Except` outcome. -/
def handle_get_request (size_result : Except ApiError Int)
    (range_header : Option (List Char)) (max_bytes : Int) :
    Except ApiError RangeResponse :=
  match size_result with
  | .error err => .error err
  | .ok file_size =>
    match range_header with
    | none => .error .missingRangeHeader
    | some h =>
      if h = [] then .error .missingRangeHeader
      else
        match parse h file_size max_bytes with
        | .error rerr => .error (.range rerr)
        | .ok (start, e) => .ok ⟨206, get_range_headers start e file_size, start, e⟩

/-- Numeric value of a big-endian list of decimal digit characters; used to
state theorems about headers whose bounds are decimal integer strings. -/
def digitsVal (l : List Char) : Nat := l.foldl (fun n c => 10 * n + (c.toNat - 48)) 0

theorem isDigit_ne_dash {c : Char} (h : c.isDigit = true) : c ≠ '-' := by
  intro he; rw [he] at h; exact absurd h (by decide)

theorem isDigit_ne_plus {c : Char} (h : c.isDigit = true) : c ≠ '+' := by
  intro he; rw [he] at h; exact absurd h (by decide)

theorem isDigit_ne_comma {c : Char} (h : c.isDigit = true) : c ≠ ',' := by
  intro he; rw [he] at h; exact absurd h (by decide)

theorem isDigit_not_ws {c : Char} (h : c.isDigit = true) : ¬ (c.isWhitespace = true) := by
  intro hw
  simp only [Char.isWhitespace, Bool.or_eq_true, decide_eq_true_eq] at hw
  rcases hw with ((h1 | h1) | h1) | h1 <;> subst h1 <;> exact absurd h (by decide)

theorem dropWhile_ws_eq_self (l : List Char) (h : ∀ c ∈ l, ¬ (c.isWhitespace = true)) :
    l.dropWhile Char.isWhitespace = l := by
  cases l with
  | nil => rfl
  | cons c cs =>
    rw [List.dropWhile_cons]
    simp [h c (List.mem_cons_self c cs)]

theorem pyStrip_eq_self (l : List Char) (h : ∀ c ∈ l, ¬ (c.isWhitespace = true)) :
    pyStrip l = l := by
  unfold pyStrip
  rw [dropWhile_ws_eq_self l h, dropWhile_ws_eq_self, List.reverse_reverse]
  intro c hc
  exact h c (by simpa using hc)

theorem splitOnDash_no_dash (l : List Char) (h : ∀ c ∈ l, c ≠ '-') :
    splitOnDash l = [l] := by
  induction l with
  | nil => rfl
  | cons c cs ih =>
    rw [splitOnDash]
    rw [if_neg (h c (List.mem_cons_self c cs))]
    rw [ih (fun x hx => h x (List.mem_cons_of_mem c hx))]

theorem splitOnDash_append (a b : List Char) (ha : ∀ c ∈ a, c ≠ '-')
    (hb : ∀ c ∈ b, c ≠ '-') : splitOnDash (a ++ '-' :: b) = [a, b] := by
  induction a with
  | nil =>
    simp only [List.nil_append]
    rw [splitOnDash, if_pos rfl, splitOnDash_no_dash b hb]
  | cons c cs ih =>
    rw [List.cons_append, splitOnDash]
    rw [if_neg (ha c (List.mem_cons_self c cs))]
    rw [ih (fun x hx => ha x (List.mem_cons_of_mem c hx))]

theorem startsWithList_append (p rest : List Char) :
    startsWithList p (p ++ rest) = true := by
  induction p with
  | nil => rfl
  | cons c cs ih => simp [startsWithList, ih]

theorem contains_comma_false (l : List Char) (h : ∀ c ∈ l, c ≠ ',') :
    l.contains ',' = false := by
  induction l with
  | nil => rfl
  | cons c cs ih =>
    rw [List.contains_cons]
    have hc : (',' == c) = false :=
      beq_eq_false_iff_ne.mpr (fun he => (h c (List.mem_cons_self c cs)) he.symm)
    rw [hc, ih (fun x hx => h x (List.mem_cons_of_mem c hx))]
    rfl

theorem pyDigitsAux_all_digits (l : List Char) (acc : Nat)
    (h : ∀ c ∈ l, c.isDigit = true) :
    pyDigitsAux acc l = some (l.foldl (fun n c => 10 * n + (c.toNat - 48)) acc) := by
  induction l generalizing acc with
  | nil => rfl
  | cons c cs ih =>
    have h0 := h c (List.mem_cons_self c cs)
    rw [pyDigitsAux.eq_def]
    simp only [h0, if_true]
    rw [ih _ (fun x hx => h x (List.mem_cons_of_mem c hx))]
    rfl

theorem pyDigits_all_digits (l : List Char) (hne : l ≠ [])
    (h : ∀ c ∈ l, c.isDigit = true) : pyDigits l = some (digitsVal l) := by
  cases l with
  | nil => exact absurd rfl hne
  | cons c cs =>
    rw [pyDigits, if_pos (h c (List.mem_cons_self c cs))]
    rw [pyDigitsAux_all_digits cs _ (fun x hx => h x (List.mem_cons_of_mem c hx))]
    simp [digitsVal]

theorem pyInt_all_digits (l : List Char) (hne : l ≠ [])
    (h : ∀ c ∈ l, c.isDigit = true) : pyInt l = some ((digitsVal l : Int)) := by
  unfold pyInt
  rw [pyStrip_eq_self l (fun c hc => isDigit_not_ws (h c hc))]
  cases l with
  | nil => exact absurd rfl hne
  | cons c cs =>
    have hd := h c (List.mem_cons_self c cs)
    simp only [if_neg (isDigit_ne_dash hd), if_neg (isDigit_ne_plus hd)]
    rw [pyDigits_all_digits (c :: cs) (by simp) h]
    rfl


theorem no_ws_of_digits_dash (a : Char) (as' bs : List Char)
    (had : ∀ c ∈ a :: as', c.isDigit = true) (hbd : ∀ c ∈ bs, c.isDigit = true) :
    ∀ c ∈ a :: (as' ++ '-' :: bs), ¬ (c.isWhitespace = true) := by
  intro c hc
  rw [← List.cons_append] at hc
  rcases List.mem_append.mp hc with h1 | h1
  · exact isDigit_not_ws (had c h1)
  · rcases List.mem_cons.mp h1 with h2 | h2
    · subst h2; decide
    · exact isDigit_not_ws (hbd c h2)

theorem no_comma_of_digits_dash (a : Char) (as' bs : List Char)
    (had : ∀ c ∈ a :: as', c.isDigit = true) (hbd : ∀ c ∈ bs, c.isDigit = true) :
    ∀ c ∈ a :: (as' ++ '-' :: bs), c ≠ ',' := by
  intro c hc
  rw [← List.cons_append] at hc
  rcases List.mem_append.mp hc with h1 | h1
  · exact isDigit_ne_comma (had c h1)
  · rcases List.mem_cons.mp h1 with h2 | h2
    · subst h2; decide
    · exact isDigit_ne_comma (hbd c h2)

theorem parse_normal_reduce (a : Char) (as' bs : List Char) (fs mb : Int)
    (had : ∀ c ∈ a :: as', c.isDigit = true)
    (hbne : bs ≠ []) (hbd : ∀ c ∈ bs, c.isDigit = true) :
    parse ("bytes=".toList ++ (a :: as') ++ '-' :: bs) fs mb =
      (validateRange (digitsVal (a :: as')) (digitsVal bs) fs mb).map
        (fun _ => ((digitsVal (a :: as') : Int), (digitsVal bs : Int))) := by
  have hstart : startsWithList "bytes=".toList ("bytes=".toList ++ a :: (as' ++ '-' :: bs)) = true := by
    rw [← List.cons_append]; exact startsWithList_append _ _
  have hdrop : List.drop 6 ("bytes=".toList ++ a :: (as' ++ '-' :: bs)) = a :: (as' ++ '-' :: bs) := by
    rw [← List.cons_append]
    have h6 : ("bytes=".toList).length = 6 := rfl
    rw [← h6, List.drop_left]
  have hstrip : pyStrip (a :: (as' ++ '-' :: bs)) = a :: (as' ++ '-' :: bs) :=
    pyStrip_eq_self _ (no_ws_of_digits_dash a as' bs had hbd)
  have hcomma : (a :: (as' ++ '-' :: bs)).contains ',' = false :=
    contains_comma_false _ (no_comma_of_digits_dash a as' bs had hbd)
  have hsplit : splitOnDash (a :: (as' ++ '-' :: bs)) = [a :: as', bs] := by
    rw [← List.cons_append]
    exact splitOnDash_append _ _ (fun c hc => isDigit_ne_dash (had c hc))
      (fun c hc => isDigit_ne_dash (hbd c hc))
  have hA : pyInt (a :: as') = some ((digitsVal (a :: as') : Int)) :=
    pyInt_all_digits _ (by simp) had
  have hB : pyInt bs = some ((digitsVal bs : Int)) := pyInt_all_digits _ hbne hbd
  have hane : a ≠ '-' := isDigit_ne_dash (had a (List.mem_cons_self a as'))
  have hca : ¬ (',' = a) :=
    fun he => isDigit_ne_comma (had a (List.mem_cons_self a as')) he.symm
  have hcas : ',' ∉ as' :=
    fun hm => isDigit_ne_comma (had ',' (List.mem_cons_of_mem a hm)) rfl
  have hcbs : ',' ∉ bs := fun hm => isDigit_ne_comma (hbd ',' hm) rfl
  simp [parse, parseNormalRange, hdrop, hstrip, hstart, hcomma, hsplit, hA, hB,
    hane, hbne, hca, hcas, hcbs]
  intro hco
  have hsw : startsWithList ['b', 'y', 't', 'e', 's', '=']
      ('b' :: 'y' :: 't' :: 'e' :: 's' :: '=' :: a :: (as' ++ '-' :: bs)) = true :=
    startsWithList_append ['b', 'y', 't', 'e', 's', '='] (a :: (as' ++ '-' :: bs))
  simp [hsw] at hco

theorem parse_open_reduce (a : Char) (as' : List Char) (fs mb : Int)
    (had : ∀ c ∈ a :: as', c.isDigit = true) :
    parse ("bytes=".toList ++ (a :: as') ++ ['-']) fs mb =
      (validateRange (digitsVal (a :: as')) (fs - 1) fs mb).map
        (fun _ => ((digitsVal (a :: as') : Int), fs - 1)) := by
  have hstart : startsWithList "bytes=".toList ("bytes=".toList ++ a :: (as' ++ ['-'])) = true := by
    rw [← List.cons_append]; exact startsWithList_append _ _
  have hdrop : List.drop 6 ("bytes=".toList ++ a :: (as' ++ ['-'])) = a :: (as' ++ ['-']) := by
    rw [← List.cons_append]
    have h6 : ("bytes=".toList).length = 6 := rfl
    rw [← h6, List.drop_left]
  have hstrip : pyStrip (a :: (as' ++ ['-'])) = a :: (as' ++ ['-']) :=
    pyStrip_eq_self _ (no_ws_of_digits_dash a as' [] had (by simp))
  have hsplit : splitOnDash (a :: (as' ++ ['-'])) = [a :: as', []] := by
    rw [← List.cons_append]
    exact splitOnDash_append _ _ (fun c hc => isDigit_ne_dash (had c hc)) (by simp)
  have hA : pyInt (a :: as') = some ((digitsVal (a :: as') : Int)) :=
    pyInt_all_digits _ (by simp) had
  have hane : a ≠ '-' := isDigit_ne_dash (had a (List.mem_cons_self a as'))
  have hca : ¬ (',' = a) :=
    fun he => isDigit_ne_comma (had a (List.mem_cons_self a as')) he.symm
  have hcas : ',' ∉ as' :=
    fun hm => isDigit_ne_comma (had ',' (List.mem_cons_of_mem a hm)) rfl
  simp [parse, parseNormalRange, hdrop, hstrip, hstart, hsplit, hA, hane, hca, hcas]
  intro hco
  have hsw : startsWithList ['b', 'y', 't', 'e', 's', '=']
      ('b' :: 'y' :: 't' :: 'e' :: 's' :: '=' :: a :: (as' ++ ['-'])) = true :=
    startsWithList_append ['b', 'y', 't', 'e', 's', '='] (a :: (as' ++ ['-']))
  simp [hsw] at hco

theorem parse_suffix_reduce (ns : List Char) (fs mb : Int)
    (hne : ns ≠ []) (hd : ∀ c ∈ ns, c.isDigit = true) :
    parse ("bytes=".toList ++ '-' :: ns) fs mb =
      if (digitsVal ns : Int) ≤ 0 then .error .invalidSuffixLength
      else
        (validateRange (max (fs - digitsVal ns) 0) (fs - 1) fs mb).map
          (fun _ => (max (fs - (digitsVal ns : Int)) 0, fs - 1)) := by
  have hstart : startsWithList "bytes=".toList ("bytes=".toList ++ '-' :: ns) = true :=
    startsWithList_append _ _
  have hdrop : List.drop 6 ("bytes=".toList ++ '-' :: ns) = '-' :: ns := by
    have h6 : ("bytes=".toList).length = 6 := rfl
    rw [← h6, List.drop_left]
  have hstrip : pyStrip ('-' :: ns) = '-' :: ns := by
    apply pyStrip_eq_self
    intro c hc
    rcases List.mem_cons.mp hc with h2 | h2
    · subst h2; decide
    · exact isDigit_not_ws (hd c h2)
  have hcns : ',' ∉ ns := fun hm => isDigit_ne_comma (hd ',' hm) rfl
  have hN : pyInt ns = some ((digitsVal ns : Int)) := pyInt_all_digits _ hne hd
  simp [parse, hdrop, hstrip, hstart, hN, hcns]
  intro hco
  have hsw : startsWithList ['b', 'y', 't', 'e', 's', '=']
      ('b' :: 'y' :: 't' :: 'e' :: 's' :: '=' :: '-' :: ns) = true :=
    startsWithList_append ['b', 'y', 't', 'e', 's', '='] ('-' :: ns)
  simp [hsw] at hco

theorem validateRange_ok_iff (s e fs mb : Int) :
    validateRange s e fs mb = .ok () ↔ 0 ≤ s ∧ s ≤ e ∧ e < fs ∧ e - s + 1 ≤ mb := by
  unfold validateRange
  split_ifs with h1 h2
  · simp; omega
  · simp; omega
  · simp; omega

theorem parse_ok_validate (h : List Char) (fs mb s e : Int)
    (hp : parse h fs mb = .ok (s, e)) : validateRange s e fs mb = .ok () := by
  simp only [parse] at hp
  split at hp
  · exact absurd hp (by simp)
  · split at hp
    · exact absurd hp (by simp)
    · split at hp
      · split at hp
        · exact absurd hp (by simp)
        · split at hp
          · exact absurd hp (by simp)
          · rcases hv : validateRange (max (fs - _) 0) (fs - 1) fs mb with er | u
            · rw [hv] at hp; exact absurd hp (by simp [Except.map])
            · rw [hv] at hp
              simp [Except.map] at hp
              obtain ⟨rfl, rfl⟩ := hp
              cases u
              exact hv
      · split at hp
        · exact absurd hp (by simp)
        · rename_i st en heq
          rcases hv : validateRange st en fs mb with er | u
          · rw [hv] at hp; exact absurd hp (by simp [Except.map])
          · rw [hv] at hp
            simp [Except.map] at hp
            obtain ⟨rfl, rfl⟩ := hp
            cases u
            exact hv

theorem readLoop_flatten (remaining : Nat) (data : List Nat) (cs : Nat) (hcs : 0 < cs) :
    (readLoop data remaining cs).flatten = data.take remaining := by
  induction remaining using Nat.strong_induction_on generalizing data with
  | _ remaining ih =>
    rw [readLoop]
    split
    · rename_i h
      subst h; simp
    · rename_i h
      split
      · rename_i hc
        have hd : data = [] := by
          rcases (List.take_eq_nil_iff).mp hc with h0 | h0
          · exfalso; omega
          · exact h0
        subst hd; simp
      · rename_i hc
        have hLlen : (data.take (min cs remaining)).length = min (min cs remaining) data.length :=
          List.length_take _ _
        have hLpos : 0 < (data.take (min cs remaining)).length := List.length_pos.mpr hc
        have hLle : (data.take (min cs remaining)).length ≤ remaining := by omega
        rw [List.flatten_cons, ih _ (by omega)]
        have htk : data.take ((data.take (min cs remaining)).length) = data.take (min cs remaining) := by
          rw [List.take_eq_take]
          omega
        calc data.take (min cs remaining) ++
              (data.drop ((data.take (min cs remaining)).length)).take
                (remaining - (data.take (min cs remaining)).length)
            = data.take ((data.take (min cs remaining)).length) ++
              (data.drop ((data.take (min cs remaining)).length)).take
                (remaining - (data.take (min cs remaining)).length) := by rw [htk]
          _ = data.take ((data.take (min cs remaining)).length +
                (remaining - (data.take (min cs remaining)).length)) := (List.take_add _ _ _).symm
          _ = data.take remaining := by congr 1; omega

theorem readLoop_chunk_bound (remaining : Nat) (data : List Nat) (cs : Nat) :
    ∀ c ∈ readLoop data remaining cs, c.length ≤ cs := by
  induction remaining using Nat.strong_induction_on generalizing data with
  | _ remaining ih =>
    intro c hcmem
    rw [readLoop] at hcmem
    split at hcmem
    · simp at hcmem
    · split at hcmem
      · simp at hcmem
      · rename_i h hc
        rcases List.mem_cons.mp hcmem with hh | hh
        · subst hh
          have := List.length_take (min cs remaining) data
          omega
        · have hLpos : 0 < (data.take (min cs remaining)).length := List.length_pos.mpr hc
          exact ih _ (by omega) _ _ hh

/-- C1: for every header `bytes=A-B` where `A` and `B` are decimal integer
strings with `0 ≤ A ≤ B < totalSize` and `B - A + 1 ≤ maxBytes`, `parse`
succeeds and returns exactly the interval `(A, B)`; and for `bytes=A-` with
`0 ≤ A < totalSize` and `totalSize - A ≤ maxBytes` it returns
`(A, totalSize - 1)`.  The digit string `A` is the list `a :: as'` and its
value `digitsVal (a :: as')`; `0 ≤ A` holds because values of digit strings
are naturals. -/
theorem c1_normal_form_exact (a : Char) (as' bs : List Char) (fs mb : Int)
    (had : ∀ c ∈ a :: as', c.isDigit = true)
    (hbne : bs ≠ []) (hbd : ∀ c ∈ bs, c.isDigit = true) :
    ((digitsVal (a :: as') : Int) ≤ digitsVal bs → (digitsVal bs : Int) < fs →
      (digitsVal bs : Int) - digitsVal (a :: as') + 1 ≤ mb →
      parse ("bytes=".toList ++ (a :: as') ++ '-' :: bs) fs mb =
        .ok ((digitsVal (a :: as') : Int), (digitsVal bs : Int)))
    ∧ ((digitsVal (a :: as') : Int) < fs → fs - digitsVal (a :: as') ≤ mb →
      parse ("bytes=".toList ++ (a :: as') ++ ['-']) fs mb =
        .ok ((digitsVal (a :: as') : Int), fs - 1)) := by
  constructor
  · intro h1 h2 h3
    rw [parse_normal_reduce a as' bs fs mb had hbne hbd]
    rw [(validateRange_ok_iff _ _ _ _).mpr ⟨Int.natCast_nonneg _, h1, h2, h3⟩]
    rfl
  · intro h1 h2
    rw [parse_open_reduce a as' fs mb had]
    rw [(validateRange_ok_iff _ _ _ _).mpr
      ⟨Int.natCast_nonneg _, by omega, by omega, by omega⟩]
    rfl

/-- C2: after numeric resolution, validation fails with `rangeNotSatisfiable`
exactly when `start < 0`, `end ≥ totalSize` or `start > end`; otherwise it
fails with `rangeTooLarge` exactly when `end - start + 1 > maxBytes` (the
bounds check is performed before the size-ceiling check, which the first
equivalence captures: it holds whatever `maxBytes` is).  Consequently
`end = totalSize - 1` is satisfiable, `end = totalSize` is always
`rangeNotSatisfiable`, a window of exactly `maxBytes` succeeds and one of
`maxBytes + 1` fails with `rangeTooLarge`. -/
theorem c2_validate_order_and_boundaries (s e fs mb : Int) :
    (validateRange s e fs mb = .error .rangeNotSatisfiable ↔ (s < 0 ∨ e ≥ fs ∨ s > e))
    ∧ ((0 ≤ s ∧ e < fs ∧ s ≤ e) →
        (validateRange s e fs mb = .error .rangeTooLarge ↔ e - s + 1 > mb))
    ∧ (validateRange s e fs mb = .ok () ↔ (0 ≤ s ∧ s ≤ e ∧ e < fs ∧ e - s + 1 ≤ mb))
    ∧ (0 ≤ s → s ≤ fs - 1 → fs - s ≤ mb → validateRange s (fs - 1) fs mb = .ok ())
    ∧ validateRange s fs fs mb = .error .rangeNotSatisfiable
    ∧ (0 ≤ s → s + mb - 1 < fs → 0 < mb → validateRange s (s + mb - 1) fs mb = .ok ())
    ∧ (0 ≤ s → s + mb < fs → 0 ≤ mb →
        validateRange s (s + mb) fs mb = .error .rangeTooLarge) := by
  refine ⟨?_, ?_, validateRange_ok_iff s e fs mb, ?_, ?_, ?_, ?_⟩
  · unfold validateRange
    split_ifs with h1 h2 <;> simp <;> omega
  · intro hb
    unfold validateRange
    split_ifs with h1 h2 <;> simp <;> omega
  · intro h1 h2 h3
    exact (validateRange_ok_iff _ _ _ _).mpr ⟨h1, by omega, by omega, by omega⟩
  · unfold validateRange
    rw [if_pos (by omega)]
  · intro h1 h2 h3
    exact (validateRange_ok_iff _ _ _ _).mpr ⟨h1, by omega, by omega, by omega⟩
  · intro h1 h2 h3
    unfold validateRange
    rw [if_neg (by omega), if_pos (by omega)]

/-- Witness for C2: size 10, max 10 — the window `0-9` (exactly the file,
end = size - 1) succeeds, `0-10` (end = size) is not satisfiable, and with
size 12 the eleven-byte window `0-10` exceeds max 10 and is too large. -/
theorem c2_witness :
    validateRange 0 9 10 10 = .ok ()
    ∧ validateRange 0 10 10 10 = .error .rangeNotSatisfiable
    ∧ validateRange 0 10 12 10 = .error .rangeTooLarge := by
  refine ⟨?_, ?_, ?_⟩
  · exact (c2_validate_order_and_boundaries 0 9 10 10).2.2.1.mpr (by omega)
  · exact (c2_validate_order_and_boundaries 0 10 10 10).1.mpr (by omega)
  · exact ((c2_validate_order_and_boundaries 0 10 12 10).2.1 (by omega)).mpr (by omega)

/-- Witness for C1 at the concrete header `bytes=1-3`, size 10, max 10. -/
theorem c1_witness :
    ((∀ c ∈ ['1'], c.isDigit = true) ∧ ['3'] ≠ [] ∧ (∀ c ∈ ['3'], c.isDigit = true))
    ∧ parse "bytes=1-3".toList 10 10 = .ok (1, 3) := by
  refine ⟨by decide, ?_⟩
  have h := (c1_normal_form_exact '1' [] ['3'] 10 10 (by decide) (by decide) (by decide)).1
    (by decide) (by decide) (by decide)
  exact h.trans (by rfl)

/-- C3 counterexample: the claim promises that `bytes=-N` with
`0 < N ≤ totalSize` always yields `(totalSize - N, totalSize - 1)`, with no
condition on `maxBytes`; but at `totalSize = 10`, `maxBytes = 3`, the header
`bytes=-5` fails with `rangeTooLarge` instead of returning `(5, 9)`. -/
theorem c3_counterexample_suffix_ignores_max_bytes :
    parse "bytes=-5".toList 10 3 = .error .rangeTooLarge
    ∧ parse "bytes=-5".toList 10 3 ≠ .ok (5, 9) := by
  constructor
  · rfl
  · intro hco
    rw [show parse "bytes=-5".toList 10 3 = .error .rangeTooLarge from rfl] at hco
    exact absurd hco (by simp)

/-- C3 (amended): for every suffix header `bytes=-N` with
`0 < N ≤ totalSize` AND `N ≤ maxBytes`, `parse` returns
`(totalSize - N, totalSize - 1)`; `N = 0` is rejected with
`invalidSuffixLength`; and for `N > totalSize` the start clamps to
`max (totalSize - N) 0 = 0` (shown under the conditions that make
validation succeed), so in general `start = max (totalSize - N, 0)` and
`end = totalSize - 1`. -/
theorem c3_suffix_form_amended (n : Char) (ns' : List Char) (fs mb : Int)
    (hd : ∀ c ∈ n :: ns', c.isDigit = true) :
    (0 < (digitsVal (n :: ns') : Int) → (digitsVal (n :: ns') : Int) ≤ fs →
      (digitsVal (n :: ns') : Int) ≤ mb →
      parse ("bytes=".toList ++ '-' :: (n :: ns')) fs mb =
        .ok (fs - digitsVal (n :: ns'), fs - 1))
    ∧ (digitsVal (n :: ns') = 0 →
      parse ("bytes=".toList ++ '-' :: (n :: ns')) fs mb = .error .invalidSuffixLength)
    ∧ ((fs : Int) < digitsVal (n :: ns') → 0 < fs → fs ≤ mb →
      parse ("bytes=".toList ++ '-' :: (n :: ns')) fs mb = .ok (0, fs - 1)) := by
  refine ⟨?_, ?_, ?_⟩
  · intro h1 h2 h3
    rw [parse_suffix_reduce (n :: ns') fs mb (by simp) hd]
    rw [if_neg (by omega)]
    rw [show max (fs - ((digitsVal (n :: ns') : Nat) : Int)) 0 =
      fs - digitsVal (n :: ns') from max_eq_left (by omega)]
    rw [(validateRange_ok_iff _ _ _ _).mpr ⟨by omega, by omega, by omega, by omega⟩]
    rfl
  · intro h0
    rw [parse_suffix_reduce (n :: ns') fs mb (by simp) hd]
    rw [if_pos (by omega)]
  · intro h1 h2 h3
    rw [parse_suffix_reduce (n :: ns') fs mb (by simp) hd]
    rw [if_neg (by omega)]
    rw [show max (fs - ((digitsVal (n :: ns') : Nat) : Int)) 0 = 0 from
      max_eq_right (by omega)]
    rw [(validateRange_ok_iff _ _ _ _).mpr ⟨by omega, by omega, by omega, by omega⟩]
    rfl

/-- Witness for C3 (amended), scenario B of the spec: size 10000, header
`bytes=-1000` parses to the interval `(9000, 9999)`. -/
theorem c3_witness :
    (∀ c ∈ ['1', '0', '0', '0'], c.isDigit = true)
    ∧ parse "bytes=-1000".toList 10000 2097152 = .ok (9000, 9999) := by
  refine ⟨by decide, ?_⟩
  have h := (c3_suffix_form_amended '1' ['0', '0', '0'] 10000 2097152 (by decide)).1
    (by decide) (by decide) (by decide)
  exact h.trans (by rfl)

/-- C4: every interval `(start, end)` that `parse` returns successfully,
for any header string, `totalSize` and `maxBytes`, satisfies the
`ByteInterval` invariant `0 ≤ start ≤ end < totalSize` and
`end - start + 1 ≤ maxBytes`; the final conjunct `0 < totalSize` shows that
for a resource of size 0 no header whatsoever parses successfully. -/
theorem c4_success_invariant (h : List Char) (fs mb s e : Int)
    (hp : parse h fs mb = .ok (s, e)) :
    0 ≤ s ∧ s ≤ e ∧ e < fs ∧ e - s + 1 ≤ mb ∧ 0 < fs := by
  have hv := (validateRange_ok_iff s e fs mb).mp (parse_ok_validate h fs mb s e hp)
  omega

/-- Witness for C4 at the concrete successful parse of `bytes=0-4`. -/
theorem c4_witness :
    parse "bytes=0-4".toList 10 100 = .ok (0, 4)
    ∧ (0 ≤ (0 : Int) ∧ (0 : Int) ≤ 4 ∧ (4 : Int) < 10 ∧ (4 : Int) - 0 + 1 ≤ 100
        ∧ (0 : Int) < 10) :=
  ⟨rfl, c4_success_invariant ("bytes=0-4".toList) 10 100 0 4 rfl⟩

/-- C5: `handle_get_request` resolves the resource size before examining
the Range header — an error from the size lookup (in particular `notFound`,
HTTP 404) propagates unchanged regardless of any Range header supplied —
and for an existing resource whose Range header is absent or empty it fails
with `missingRangeHeader` (HTTP 416) before any parsing occurs. -/
theorem c5_size_resolved_before_header (err : ApiError) (hdr : Option (List Char))
    (fs mb : Int) :
    handle_get_request (.error err) hdr mb = .error err
    ∧ handle_get_request (.error .notFound) hdr mb = .error .notFound
    ∧ handle_get_request (.ok fs) none mb = .error .missingRangeHeader
    ∧ handle_get_request (.ok fs) (some []) mb = .error .missingRangeHeader :=
  ⟨rfl, rfl, rfl, rfl⟩

/-- C6: for every resource with known contents and every validated interval
`[start, end]` within it, concatenating (in emission order) the chunks of
`stream_range` reproduces exactly the bytes of the resource at offsets
`start` through `end`, for both the local and the S3 backing source; each
emitted chunk is no larger than `chunk_size`; the stream terminates exactly
when `end - start + 1` bytes have been emitted; and — last conjunct, over
arbitrary underlying data, including data that runs short — the loop still
emits exactly the prefix that is available, terminating early without
error. -/
theorem c6_stream_round_trip (file : List Nat) (start e cs : Nat)
    (hse : start ≤ e) (he : e < file.length) (hcs : 0 < cs) :
    (stream_range file start e cs).flatten = (file.drop start).take (e + 1 - start)
    ∧ (s3_stream_range file start e cs).flatten = (file.drop start).take (e + 1 - start)
    ∧ ((stream_range file start e cs).flatten).length = e + 1 - start
    ∧ ((s3_stream_range file start e cs).flatten).length = e + 1 - start
    ∧ (∀ c ∈ stream_range file start e cs, c.length ≤ cs)
    ∧ (∀ c ∈ s3_stream_range file start e cs, c.length ≤ cs)
    ∧ (∀ data : List Nat, (readLoop data (e + 1 - start) cs).flatten =
        data.take (e + 1 - start)) := by
  have h1 : (stream_range file start e cs).flatten = (file.drop start).take (e + 1 - start) :=
    readLoop_flatten _ _ _ hcs
  have h2 : (s3_stream_range file start e cs).flatten = (file.drop start).take (e + 1 - start) := by
    unfold s3_stream_range
    rw [readLoop_flatten _ _ _ hcs, List.take_take, min_self]
  have hlen : ((file.drop start).take (e + 1 - start)).length = e + 1 - start := by
    rw [List.length_take, List.length_drop]
    omega
  exact ⟨h1, h2, by rw [h1, hlen], by rw [h2, hlen],
    readLoop_chunk_bound _ _ _, readLoop_chunk_bound _ _ _,
    fun data => readLoop_flatten _ data _ hcs⟩

/-- Witness for C6: streaming bytes 1-3 of a five-byte resource in chunks
of 2 yields the chunks `[11, 12]` and `[13]`, which concatenate to the
exact slice. -/
theorem c6_witness :
    (1 ≤ 3 ∧ 3 < [10, 11, 12, 13, 14].length ∧ 0 < 2)
    ∧ (stream_range [10, 11, 12, 13, 14] 1 3 2).flatten = [11, 12, 13]
    ∧ stream_range [10, 11, 12, 13, 14] 1 3 2 = [[11, 12], [13]] := by
  refine ⟨by decide, ?_, by simp [stream_range, readLoop]⟩
  have h := c6_stream_round_trip [10, 11, 12, 13, 14] 1 3 2 (by decide) (by decide) (by decide)
  exact h.1.trans (by decide)

/-- C7 (refuting the universal part): headers that match no recognized
shape mostly fail inside the 416 taxonomy (`invalidRangeFormat`,
`unsupportedUnit`), but a suffix-form header whose length is not an integer
— `bytes=-abc`, or the bare `bytes=-` — makes the uncaught `int()`
`ValueError` escape `parse` entirely (`uncaughtValueError`), a failure
outside the typed error taxonomy, contradicting the documented contract of
`parse` (docstring: raises `HTTPException`) and the intent that every
failure maps to a 416 response. -/
theorem c7_value_error_escapes_taxonomy :
    parse "bytes=-abc".toList 10000 2097152 = .error .uncaughtValueError
    ∧ parse "bytes=-".toList 10000 2097152 = .error .uncaughtValueError
    ∧ parse "bytes=abc".toList 10000 2097152 = .error .invalidRangeFormat
    ∧ parse "other=0-5".toList 10000 2097152 = .error .unsupportedUnit :=
  ⟨rfl, rfl, rfl, rfl⟩

/-- C8 counterexample: on the range fetch (`S3DataSource.stream_range`),
a remote `ClientError` with code 404 is mapped to `backendError` (HTTP
500), not to `notFound` (HTTP 404) as the claim states for both remote
calls. -/
theorem c8_counterexample_stream_404_not_mapped :
    s3_stream_range_response (.clientError "404") 0 999 64 = .error (.backendError "404")
    ∧ s3_stream_range_response (.clientError "404") 0 999 64 ≠ .error .notFound := by
  constructor
  · rfl
  · intro hco
    rw [show s3_stream_range_response (.clientError "404") 0 999 64 =
      .error (.backendError "404") from rfl] at hco
    exact absurd hco (by simp)

/-- C8 (amended): for the object-store backing source, a remote 404 on the
metadata fetch (`get_file_size`) is mapped to `notFound` (HTTP 404),
distinguished from every other backend failure, which is mapped to
`backendError` (HTTP 500) with the backend-specific cause preserved; on the
range fetch (`stream_range`) EVERY `ClientError` — the 404 code included —
is mapped to `backendError` with the cause preserved. -/
theorem c8_error_mapping_amended (code : String) (n : Int) (body : List Nat)
    (start e cs : Nat) :
    s3_get_file_size (.clientError "404") = .error .notFound
    ∧ (code ≠ "404" → s3_get_file_size (.clientError code) = .error (.backendError code))
    ∧ s3_get_file_size (.ok n) = .ok n
    ∧ s3_stream_range_response (.clientError code) start e cs = .error (.backendError code)
    ∧ s3_stream_range_response (.ok body) start e cs =
        .ok (readLoop body (e + 1 - start) cs) := by
  refine ⟨rfl, ?_, rfl, rfl, rfl⟩
  intro hne
  simp [s3_get_file_size, hne]

/-- Witness for C8 (amended): a metadata-fetch `ClientError` with code 500
maps to `backendError` with the code preserved. -/
theorem c8_witness :
    ("500" ≠ "404")
    ∧ s3_get_file_size (.clientError "500") = .error (.backendError "500") :=
  ⟨by decide, (c8_error_mapping_amended "500" 0 [] 0 0 0).2.1 (by decide)⟩

/-- C9: for every successful ranged GET with validated interval
`(start, end)` on a resource of size `totalSize`, the response has status
206 and carries exactly the headers
`Content-Range = bytes {start}-{end}/{totalSize}` (spelled with `toString`
below), `Accept-Ranges = bytes`, `Content-Length = end - start + 1`, and
`Content-Type = application/octet-stream`. -/
theorem c9_partial_response_headers (h : List Char) (fs mb s e : Int)
    (hp : parse h fs mb = .ok (s, e)) :
    handle_get_request (.ok fs) (some h) mb =
      .ok ⟨206,
        [("Content-Range", "bytes " ++ toString s ++ "-" ++ toString e ++ "/" ++ toString fs),
         ("Accept-Ranges", "bytes"),
         ("Content-Length", toString (e - s + 1)),
         ("Content-Type", "application/octet-stream")], s, e⟩ := by
  have hne : h ≠ [] := by
    intro h0
    subst h0
    rw [show parse [] fs mb = .error .unsupportedUnit from rfl] at hp
    exact absurd hp (by simp)
  simp [handle_get_request, hne, hp, get_range_headers]

/-- Witness for C9, scenario A of the spec: size 10000, header
`bytes=0-1023` yields 206 with `Content-Range: bytes 0-1023/10000` and
`Content-Length: 1024`. -/
theorem c9_witness_scenario_a :
    parse "bytes=0-1023".toList 10000 2097152 = .ok (0, 1023)
    ∧ handle_get_request (.ok 10000) (some "bytes=0-1023".toList) 2097152 =
        .ok ⟨206,
          [("Content-Range", "bytes 0-1023/10000"),
           ("Accept-Ranges", "bytes"),
           ("Content-Length", "1024"),
           ("Content-Type", "application/octet-stream")], 0, 1023⟩ := by
  constructor
  · rfl
  · have h9 := c9_partial_response_headers ("bytes=0-1023".toList) 10000 2097152 0 1023 rfl
    exact h9.trans (by rfl)

/-- C10: the parser accepts numeric bound spellings beyond plain decimal
digit sequences — bounds with surrounding whitespace (`bytes=0 - 5`), with
a leading plus sign (`bytes=+0-+5`), and with underscore digit separators
(`bytes=1_0-2_0`) all parse successfully to the corresponding numeric
interval instead of being rejected. -/
theorem c10_lenient_numeric_spellings :
    parse "bytes=0 - 5".toList 100 100 = .ok (0, 5)
    ∧ parse "bytes=+0-+5".toList 100 100 = .ok (0, 5)
    ∧ parse "bytes=1_0-2_0".toList 100 100 = .ok (10, 20) :=
  ⟨rfl, rfl, rfl⟩
